import Mathlib

/-!
Verification of the Data Drift Monitor frontend and of the drift
engine/forecaster interface it consumes.

The shipped sources are the React client (`App.js`, `DriftChart.js`).
Components that live in the unshipped backend (schema drift detection,
the forecaster, the engine severity ladder) are modelled from the
specification and marked as such in their doc comments.

Scores are embedded as rationals, JS arrays as Lean lists.
-/

namespace DriftMonitor

/-- Discrete severity levels named by the specification. -/
inductive Severity where
  | low
  | medium
  | high
  | critical
deriving DecidableEq, Repr

/-- Severity classification applied by the client chart rendering:
`DriftChart` point colors, segment colors and the tooltip label callback
all use the same three bands (`v >= 0.5` high, `v >= 0.3` medium,
otherwise low). -/
def chartSeverity (v : ℚ) : Severity :=
  if v ≥ 1/2 then Severity.high
  else if v ≥ 3/10 then Severity.medium
  else Severity.low

/-- One entry of a feature-importance report as consumed by
`FeatureDriftChart` (`{name, drift_score}`). -/
structure Feature where
  name : String
  drift_score : ℚ
deriving DecidableEq, Repr

/-- Stable descending insertion: a new element is placed before the first
element whose score it meets or exceeds.  Earlier input elements therefore
stay ahead of later ones on ties, exactly as the (stable) JS
`Array.prototype.sort` with comparator `(a, b) => b.drift_score - a.drift_score`. -/
def insertByScore (x : Feature) : List Feature → List Feature
  | [] => [x]
  | y :: ys =>
      if x.drift_score ≥ y.drift_score then x :: y :: ys
      else y :: insertByScore x ys

/-- Stable sort of a feature list in descending `drift_score` order,
modelling `[...features].sort((a, b) => b.drift_score - a.drift_score)`. -/
def sortByScoreDesc : List Feature → List Feature
  | [] => []
  | x :: xs => insertByScore x (sortByScoreDesc xs)

/-- `FeatureDriftChart`: sort features by drift score descending and keep
the first ten (`.sort((a, b) => b.drift_score - a.drift_score).slice(0, 10)`). -/
def topFeatures (features : List Feature) : List Feature :=
  (sortByScoreDesc features).take 10

/-- One row of the `/history` response as used by the trend chart
(`drift_score` may be absent, i.e. null or undefined). -/
structure HistoryEntry where
  timestamp : Nat
  drift_score : Option ℚ
deriving DecidableEq, Repr

/-- The per-entry value mapping `(h) => h.drift_score || 0` of the trend
series: a missing score is plotted as 0. -/
def driftScoreOrZero (e : HistoryEntry) : ℚ :=
  e.drift_score.getD 0

/-- `trendValues` in `App.js`:
`history.slice().reverse().map((h) => h.drift_score || 0)`. -/
def trendValues (history : List HistoryEntry) : List ℚ :=
  history.reverse.map driftScoreOrZero

/-- `toggleCompare` in `App.js`: remove an already selected id, append a
new id while fewer than two are selected, otherwise keep the second
(most recently selected) id and the new one. -/
def toggleCompare (id : String) (compare : List String) : List String :=
  if id ∈ compare then compare.filter (fun x => x ≠ id)
  else if compare.length < 2 then compare ++ [id]
  else
    match compare with
    | _ :: x1 :: _ => [x1, id]
    | _ => compare

/-- Fold a sequence of `toggleCompare` clicks starting from the empty
selection. -/
def applyToggles (ids : List String) : List String :=
  ids.foldl (fun c id => toggleCompare id c) []

/-- `toggleMultiCompare` in `App.js`: remove an already selected id,
append a new id while fewer than ten are selected, otherwise leave the
selection unchanged (only a notification is shown). -/
def toggleMultiCompare (id : String) (sel : List String) : List String :=
  if id ∈ sel then sel.filter (fun x => x ≠ id)
  else if sel.length < 10 then sel ++ [id]
  else sel

/-- Fold a sequence of `toggleMultiCompare` clicks starting from the empty
selection. -/
def applyMultiToggles (ids : List String) : List String :=
  ids.foldl (fun c id => toggleMultiCompare id c) []

/-- Modelled from the spec: schema drift findings of §4.3 (the backend
`core/drift.py` is not part of the shipped sources).  A removed baseline
column resolved against an added current column yields a
`column_renamed_or_missing` finding carrying the old name, the best-match
candidate and the similarity; unresolved columns yield plain
removed/added findings. -/
inductive SchemaFinding where
  | renamed (old_column best_match : String) (similarity : ℚ)
  | removed (column : String)
  | added (column : String)
deriving DecidableEq, Repr

/-- Modelled from the spec: schema detector configuration of §4.3, a
name-similarity function and the rename threshold (default 0.6). -/
structure SchemaConfig where
  sim : String → String → ℚ
  threshold : ℚ

/-- Decides whether a finding is a rename finding for the given old
column name. -/
def isRenamedOf (r : String) : SchemaFinding → Bool
  | SchemaFinding.renamed old _ _ => old = r
  | _ => false

/-- Modelled from the spec: best name-similarity match of a removed
column against every added column (§4.3); the earliest maximum wins. -/
def bestMatch (simf : String → String → ℚ) (r : String) :
    List String → Option (String × ℚ)
  | [] => none
  | a :: as =>
      match bestMatch simf r as with
      | none => some (a, simf r a)
      | some (b, s) => if simf r a ≥ s then some (a, simf r a) else some (b, s)

/-- Modelled from the spec: resolve each removed column in order (§4.3).
A best match above the threshold emits a rename finding and consumes the
matched added column; otherwise a removed finding is emitted.  Returns
the findings and the added columns left unconsumed. -/
def resolveRemoved (cfg : SchemaConfig) :
    List String → List String → List SchemaFinding × List String
  | [], adds => ([], adds)
  | r :: rs, adds =>
      match bestMatch cfg.sim r adds with
      | some (a, s) =>
          if cfg.threshold < s then
            let rest := resolveRemoved cfg rs (adds.erase a)
            (SchemaFinding.renamed r a s :: rest.1, rest.2)
          else
            let rest := resolveRemoved cfg rs adds
            (SchemaFinding.removed r :: rest.1, rest.2)
      | none =>
          let rest := resolveRemoved cfg rs adds
          (SchemaFinding.removed r :: rest.1, rest.2)

/-- Modelled from the spec: the schema drift detector of §4.3 on the two
profiles' column-name lists.  Added = current minus baseline, removed =
baseline minus current; removed columns are resolved into renames where
possible and leftover added columns emit added findings. -/
def schemaFindings (cfg : SchemaConfig) (baseline current : List String) :
    List SchemaFinding :=
  let removedCols := baseline.filter (fun c => decide (c ∉ current))
  let addedCols := current.filter (fun c => decide (c ∉ baseline))
  let res := resolveRemoved cfg removedCols addedCols
  res.1 ++ res.2.map SchemaFinding.added

/-- Modelled from the spec: one point of the score history handed to the
forecaster (§3 ScoreHistoryPoint). -/
structure ScoreHistoryPoint where
  dataset_name : String
  fused_score : ℚ
  timestamp : Nat
deriving DecidableEq, Repr

/-- Modelled from the spec: one projected step of a forecast
(§3 ForecastResult horizon point). -/
structure HorizonPoint where
  step : Nat
  predicted_score : ℚ
  confidence : ℚ
deriving DecidableEq, Repr

/-- Modelled from the spec: trend label of §4.7. -/
inductive Trend where
  | increasing
  | decreasing
  | stable
deriving DecidableEq, Repr

/-- Modelled from the spec: forecast error taxonomy entry of §7 used by
the forecaster. -/
inductive ForecastError where
  | insufficientHistory
deriving DecidableEq, Repr

/-- Modelled from the spec: the forecaster result object (§3). -/
structure ForecastResult where
  dataset_name : String
  horizon_points : List HorizonPoint
  trend : Trend
  risk_level : Severity
deriving DecidableEq, Repr

/-- Clamp a rational into the unit interval, the numeric policy of §4.7. -/
def clamp01 (x : ℚ) : ℚ :=
  max 0 (min 1 x)

/-- Modelled from the spec: the engine severity ladder of §4.5 (backend
`services/severity.py` is not part of the shipped sources): low below
0.3, medium in [0.3, 0.5), high in [0.5, 0.8), critical at and above 0.8. -/
def severityLadder (s : ℚ) : Severity :=
  if s ≥ 4/5 then Severity.critical
  else if s ≥ 1/2 then Severity.high
  else if s ≥ 3/10 then Severity.medium
  else Severity.low

/-- Modelled from the spec: least-squares slope of the linear-trend model
fitted over the score sequence at abscissas 0, 1, ... (§4.7). -/
def fitSlope (scores : List ℚ) : ℚ :=
  let n : ℚ := scores.length
  let xs : List ℚ := (List.range scores.length).map (fun i => (i : ℚ))
  let sx := xs.sum
  let sy := scores.sum
  let sxy := ((xs.zip scores).map (fun p => p.1 * p.2)).sum
  let sxx := (xs.map (fun x => x * x)).sum
  let den := n * sxx - sx * sx
  if den = 0 then 0 else (n * sxy - sx * sy) / den

/-- Modelled from the spec: confidence of the projected step at the given
distance from the last observation, decaying with distance (§4.7). -/
def confidenceAt (step : Nat) : ℚ :=
  (9/10) ^ step

/-- Modelled from the spec: the slope dead-band epsilon of the trend
label (§4.7). -/
def epsSlope : ℚ :=
  1/100

/-- Modelled from the spec: trend label from the fitted slope (§4.7). -/
def trendOf (slope : ℚ) : Trend :=
  if slope > epsSlope then Trend.increasing
  else if slope < -epsSlope then Trend.decreasing
  else Trend.stable

/-- Modelled from the spec: the Drift Forecaster of §4.7 (the backend
forecasting code is not part of the shipped sources).  Fewer than three
history points fail with `insufficientHistory`; otherwise a linear trend
is fitted, projected `horizon` steps ahead with predicted scores clamped
to [0, 1] and monotonically decaying confidence, and the risk level is
the §4.5 ladder applied to the final projected point. -/
def forecast (history : List ScoreHistoryPoint) (horizon : Nat) :
    Except ForecastError ForecastResult :=
  if history.length < 3 then Except.error ForecastError.insufficientHistory
  else
    let scores := history.map (fun p => p.fused_score)
    let slope := fitSlope scores
    let lastScore := scores.getLast?.getD 0
    let pts := (List.range horizon).map (fun i =>
      { step := i + 1
        predicted_score := clamp01 (lastScore + slope * ((i : ℚ) + 1))
        confidence := confidenceAt (i + 1) : HorizonPoint })
    Except.ok
      { dataset_name := ((history.head?).map (fun p => p.dataset_name)).getD ""
        horizon_points := pts
        trend := trendOf slope
        risk_level := severityLadder (clamp01 (lastScore + slope * (horizon : ℚ))) }

/-! Helper lemmas on the stable descending sort. -/

theorem mem_insertByScore {z x : Feature} {l : List Feature} :
    z ∈ insertByScore x l ↔ z = x ∨ z ∈ l := by
  induction l with
  | nil => simp [insertByScore]
  | cons y ys ih =>
      unfold insertByScore
      split_ifs with h
      · simp
      · simp [ih]
        tauto

theorem insertByScore_perm (x : Feature) (l : List Feature) :
    (insertByScore x l).Perm (x :: l) := by
  induction l with
  | nil => simp [insertByScore]
  | cons y ys ih =>
      unfold insertByScore
      split_ifs with h
      · exact List.Perm.refl _
      · exact (List.Perm.cons y ih).trans (List.Perm.swap x y ys)

theorem sortByScoreDesc_perm (l : List Feature) :
    (sortByScoreDesc l).Perm l := by
  induction l with
  | nil => simp [sortByScoreDesc]
  | cons x xs ih =>
      exact (insertByScore_perm x (sortByScoreDesc xs)).trans (List.Perm.cons x ih)

theorem insertByScore_pairwise {x : Feature} {l : List Feature}
    (h : l.Pairwise (fun a b => b.drift_score ≤ a.drift_score)) :
    (insertByScore x l).Pairwise (fun a b => b.drift_score ≤ a.drift_score) := by
  induction l with
  | nil => simp [insertByScore]
  | cons y ys ih =>
      rw [List.pairwise_cons] at h
      unfold insertByScore
      split_ifs with hxy
      · refine List.Pairwise.cons ?_ (List.Pairwise.cons h.1 h.2)
        intro z hz
        rcases List.mem_cons.mp hz with hz | hz
        · rw [hz]; exact hxy
        · exact (h.1 z hz).trans hxy
      · refine List.Pairwise.cons ?_ (ih h.2)
        intro z hz
        rcases mem_insertByScore.mp hz with hz | hz
        · rw [hz]; exact le_of_not_le hxy
        · exact h.1 z hz

theorem sortByScoreDesc_pairwise (l : List Feature) :
    (sortByScoreDesc l).Pairwise (fun a b => b.drift_score ≤ a.drift_score) := by
  induction l with
  | nil => simp [sortByScoreDesc]
  | cons x xs ih => exact insertByScore_pairwise ih

/-- C1, counterexample: the client chart rendering classifies the fused
score 0.8 as high, not critical; the shipped renderings have no critical
band at all. -/
theorem chartSeverity_critical_counterexample :
    chartSeverity (4/5) = Severity.high ∧
    chartSeverity (4/5) ≠ Severity.critical := by
  have h : chartSeverity (4/5) = Severity.high := by norm_num [chartSeverity]
  refine ⟨h, ?_⟩
  rw [h]
  decide

/-- C1, amended: the client rendering (`DriftChart` point colors and
tooltip) applies a three-band ladder to the score: low iff s < 0.3,
medium iff 0.3 ≤ s < 0.5, high iff s ≥ 0.5; there is no separate
critical band, so 0.29 renders low, 0.30 medium, 0.50 high and 0.80
high. -/
theorem chartSeverity_three_band (s : ℚ) :
    (chartSeverity s = Severity.low ↔ s < 3/10) ∧
    (chartSeverity s = Severity.medium ↔ 3/10 ≤ s ∧ s < 1/2) ∧
    (chartSeverity s = Severity.high ↔ 1/2 ≤ s) ∧
    chartSeverity (29/100) = Severity.low ∧
    chartSeverity (3/10) = Severity.medium ∧
    chartSeverity (1/2) = Severity.high ∧
    chartSeverity (4/5) = Severity.high := by
  refine ⟨?_, ?_, ?_, ?_, ?_, ?_, ?_⟩
  · unfold chartSeverity
    split_ifs with h1 h2 <;> simp <;>
      first
        | (intro h3; linarith)
        | (constructor <;> linarith)
        | linarith
  · unfold chartSeverity
    split_ifs with h1 h2 <;> simp <;>
      first
        | (intro h3; linarith)
        | (constructor <;> linarith)
        | linarith
  · unfold chartSeverity
    split_ifs with h1 h2 <;> simp <;>
      first
        | (intro h3; linarith)
        | (constructor <;> linarith)
        | linarith
  · norm_num [chartSeverity]
  · norm_num [chartSeverity]
  · norm_num [chartSeverity]
  · norm_num [chartSeverity]

/-- C2, counterexample: on two features with equal scores the ranking
keeps the original input order ("zzz" before "aaa"), so ties are not
broken by column name. -/
theorem topFeatures_tie_counterexample :
    topFeatures [⟨"zzz", 1/2⟩, ⟨"aaa", 1/2⟩] = [⟨"zzz", 1/2⟩, ⟨"aaa", 1/2⟩] ∧
    topFeatures [⟨"zzz", 1/2⟩, ⟨"aaa", 1/2⟩] ≠ [⟨"aaa", 1/2⟩, ⟨"zzz", 1/2⟩] := by
  have e : topFeatures [⟨"zzz", 1/2⟩, ⟨"aaa", 1/2⟩] = [⟨"zzz", 1/2⟩, ⟨"aaa", 1/2⟩] := by
    norm_num [topFeatures, sortByScoreDesc, insertByScore]
  refine ⟨e, ?_⟩
  rw [e]
  intro h
  have hn : "zzz" = "aaa" := congrArg (fun l => (l.headD ⟨"", 0⟩).name) h
  exact absurd hn (by decide)

/-- C2, amended: feature attribution returns at most the top 10 columns
in descending order of per-column drift score drawn from the input
(a permutation is sorted and truncated); ties between equal scores keep
the original input order (stable sort), they are not broken by column
name. -/
theorem topFeatures_sorted_top10 (features : List Feature) :
    (topFeatures features).length ≤ 10 ∧
    (topFeatures features).Pairwise (fun a b => b.drift_score ≤ a.drift_score) ∧
    (sortByScoreDesc features).Perm features ∧
    topFeatures features = (sortByScoreDesc features).take 10 := by
  refine ⟨?_, ?_, sortByScoreDesc_perm features, rfl⟩
  · simp only [topFeatures]
    exact List.length_take_le 10 (sortByScoreDesc features)
  · exact (sortByScoreDesc_pairwise features).sublist (List.take_sublist 10 _)

/-- C3: the attribution ranking is deterministic: two runs on identical
feature lists produce identical output orderings. -/
theorem topFeatures_deterministic (fs1 fs2 : List Feature) (h : fs1 = fs2) :
    topFeatures fs1 = topFeatures fs2 := by
  rw [h]

/-- Witness for C3 at a concrete feature list. -/
theorem topFeatures_deterministic_witness :
    topFeatures [⟨"a", 1/2⟩, ⟨"b", 3/10⟩] = topFeatures [⟨"a", 1/2⟩, ⟨"b", 3/10⟩] :=
  topFeatures_deterministic [⟨"a", 1/2⟩, ⟨"b", 3/10⟩] [⟨"a", 1/2⟩, ⟨"b", 3/10⟩] rfl

/-! Helper lemmas on the compare selections. -/

theorem toggleCompare_bound_nodup (id : String) {c : List String}
    (hlen : c.length ≤ 2) (hnd : c.Nodup) :
    (toggleCompare id c).length ≤ 2 ∧ (toggleCompare id c).Nodup := by
  unfold toggleCompare
  split_ifs with hmem hlt
  · exact ⟨le_trans (List.length_filter_le _ _) hlen, hnd.filter _⟩
  · constructor
    · simp only [List.length_append, List.length_singleton]
      omega
    · simp only [List.nodup_append, List.nodup_singleton, List.disjoint_singleton]
      exact ⟨hnd, trivial, hmem⟩
  · rcases c with _ | ⟨x0, c⟩
    · simp at hlt
    · rcases c with _ | ⟨x1, rest⟩
      · simp at hlt
      · constructor
        · show ([x1, id]).length ≤ 2
          simp
        · show ([x1, id]).Nodup
          refine List.nodup_cons.mpr ⟨?_, List.nodup_singleton id⟩
          simp only [List.mem_singleton]
          intro h
          exact hmem (by rw [← h]; simp)

theorem applyToggles_bound_nodup (ids : List String) :
    (applyToggles ids).length ≤ 2 ∧ (applyToggles ids).Nodup := by
  have key : ∀ (l : List String) (c : List String), c.length ≤ 2 → c.Nodup →
      (l.foldl (fun c id => toggleCompare id c) c).length ≤ 2 ∧
      (l.foldl (fun c id => toggleCompare id c) c).Nodup := by
    intro l
    induction l with
    | nil => intro c h1 h2; exact ⟨h1, h2⟩
    | cons x xs ih =>
        intro c h1 h2
        have h := toggleCompare_bound_nodup x h1 h2
        exact ih (toggleCompare x c) h.1 h.2
  exact key ids [] (by simp) (by simp)

theorem toggleMultiCompare_bound_nodup (id : String) {c : List String}
    (hlen : c.length ≤ 10) (hnd : c.Nodup) :
    (toggleMultiCompare id c).length ≤ 10 ∧ (toggleMultiCompare id c).Nodup := by
  unfold toggleMultiCompare
  split_ifs with hmem hlt
  · exact ⟨le_trans (List.length_filter_le _ _) hlen, hnd.filter _⟩
  · constructor
    · simp only [List.length_append, List.length_singleton]
      omega
    · simp only [List.nodup_append, List.nodup_singleton, List.disjoint_singleton]
      exact ⟨hnd, trivial, hmem⟩
  · exact ⟨hlen, hnd⟩

theorem applyMultiToggles_bound_nodup (ids : List String) :
    (applyMultiToggles ids).length ≤ 10 ∧ (applyMultiToggles ids).Nodup := by
  have key : ∀ (l : List String) (c : List String), c.length ≤ 10 → c.Nodup →
      (l.foldl (fun c id => toggleMultiCompare id c) c).length ≤ 10 ∧
      (l.foldl (fun c id => toggleMultiCompare id c) c).Nodup := by
    intro l
    induction l with
    | nil => intro c h1 h2; exact ⟨h1, h2⟩
    | cons x xs ih =>
        intro c h1 h2
        have h := toggleMultiCompare_bound_nodup x h1 h2
        exact ih (toggleMultiCompare x c) h.1 h.2
  exact key ids [] (by simp) (by simp)

/-- C8: along any sequence of `toggleCompare` clicks from the empty
selection the two-way compare list stays at most 2 long with no
duplicate ids; toggling a selected id removes it, and toggling a new id
with two selected keeps the more recently selected (second) id plus the
new one. -/
theorem toggleCompare_selection_invariant (ids : List String) (id : String) :
    (applyToggles ids).length ≤ 2 ∧ (applyToggles ids).Nodup ∧
    (id ∈ applyToggles ids → id ∉ toggleCompare id (applyToggles ids)) ∧
    (∀ a b, applyToggles ids = [a, b] → id ∉ [a, b] →
      toggleCompare id (applyToggles ids) = [b, id]) := by
  obtain ⟨h1, h2⟩ := applyToggles_bound_nodup ids
  refine ⟨h1, h2, ?_, ?_⟩
  · intro hmem
    unfold toggleCompare
    rw [if_pos hmem]
    simp
  · intro a b hab hid
    unfold toggleCompare
    rw [hab]
    rw [if_neg (by simpa using hid), if_neg (by simp)]

/-- Witness for C8: after selecting "a" then "b", toggling the fresh id
"c" keeps "b" (the more recent selection) and adds "c"; toggling the
selected id "a" removes it. -/
theorem toggleCompare_selection_invariant_witness :
    toggleCompare "c" (applyToggles ["a", "b"]) = ["b", "c"] ∧
    "a" ∉ toggleCompare "a" (applyToggles ["a", "b"]) := by
  have e : applyToggles ["a", "b"] = ["a", "b"] := by
    simp [applyToggles, toggleCompare]
  constructor
  · exact (toggleCompare_selection_invariant ["a", "b"] "c").2.2.2 "a" "b" e (by decide)
  · exact (toggleCompare_selection_invariant ["a", "b"] "a").2.2.1 (by rw [e]; decide)

/-- C9: along any sequence of `toggleMultiCompare` clicks from the empty
selection the multi-compare list stays at most 10 long with no duplicate
ids; toggling a selected id removes it, and toggling a new id with ten
selected leaves the selection unchanged. -/
theorem toggleMultiCompare_selection_invariant (ids : List String) (id : String) :
    (applyMultiToggles ids).length ≤ 10 ∧ (applyMultiToggles ids).Nodup ∧
    (id ∈ applyMultiToggles ids → id ∉ toggleMultiCompare id (applyMultiToggles ids)) ∧
    ((applyMultiToggles ids).length = 10 → id ∉ applyMultiToggles ids →
      toggleMultiCompare id (applyMultiToggles ids) = applyMultiToggles ids) := by
  obtain ⟨h1, h2⟩ := applyMultiToggles_bound_nodup ids
  refine ⟨h1, h2, ?_, ?_⟩
  · intro hmem
    unfold toggleMultiCompare
    rw [if_pos hmem]
    simp
  · intro hfull hid
    unfold toggleMultiCompare
    rw [if_neg hid, if_neg (by omega)]

/-- Witness for C9: with ten ids selected, toggling a fresh id leaves
the selection unchanged; toggling a selected id removes it. -/
theorem toggleMultiCompare_selection_invariant_witness :
    toggleMultiCompare "x"
        (applyMultiToggles ["a", "b", "c", "d", "e", "f", "g", "h", "i", "j"]) =
      applyMultiToggles ["a", "b", "c", "d", "e", "f", "g", "h", "i", "j"] ∧
    "a" ∉ toggleMultiCompare "a" (applyMultiToggles ["a"]) := by
  have e : applyMultiToggles ["a", "b", "c", "d", "e", "f", "g", "h", "i", "j"] =
      ["a", "b", "c", "d", "e", "f", "g", "h", "i", "j"] := by
    simp [applyMultiToggles, toggleMultiCompare]
  have e1 : applyMultiToggles ["a"] = ["a"] := by
    simp [applyMultiToggles, toggleMultiCompare]
  constructor
  · exact (toggleMultiCompare_selection_invariant
      ["a", "b", "c", "d", "e", "f", "g", "h", "i", "j"] "x").2.2.2
      (by rw [e]; decide) (by rw [e]; decide)
  · exact (toggleMultiCompare_selection_invariant ["a"] "a").2.2.1 (by rw [e1]; decide)

/-- C10: the plotted drift-trend series is exactly the fetched history
list reversed, same length with nothing omitted, the element at plot
position i coming from history position length - 1 - i, and an entry
with a missing drift score is plotted as 0. -/
theorem trendValues_reverse_with_zero (history : List HistoryEntry) :
    (trendValues history).length = history.length ∧
    (∀ i, i < history.length →
      (trendValues history).getD i 0 =
        driftScoreOrZero (history.getD (history.length - 1 - i) ⟨0, none⟩)) ∧
    (∀ e : HistoryEntry, e.drift_score = none → driftScoreOrZero e = 0) := by
  refine ⟨by simp [trendValues], ?_, ?_⟩
  · intro i hi
    rw [trendValues, List.getD_eq_getElem?_getD, List.getElem?_map,
      List.getElem?_reverse hi, List.getD_eq_getElem?_getD]
    have hlt : history.length - 1 - i < history.length := by omega
    rw [List.getElem?_eq_getElem hlt]
    simp
  · intro e he
    simp [driftScoreOrZero, he]

/-- Witness for C10: on a concrete two-entry history, plot position 0
shows the last (oldest-after-reversal) entry, whose missing score is
plotted as 0. -/
theorem trendValues_reverse_with_zero_witness :
    (trendValues [⟨0, some (1/2)⟩, ⟨1, none⟩]).length = 2 ∧
    (trendValues [⟨0, some (1/2)⟩, ⟨1, none⟩]).getD 0 0 =
      driftScoreOrZero (([⟨0, some (1/2)⟩, ⟨1, none⟩] :
        List HistoryEntry).getD 1 ⟨0, none⟩) := by
  have h := trendValues_reverse_with_zero [⟨0, some (1/2)⟩, ⟨1, none⟩]
  exact ⟨h.1, h.2.1 0 (by simp)⟩

/-! Helper lemmas on the forecaster. -/

theorem clamp01_mem (x : ℚ) : 0 ≤ clamp01 x ∧ clamp01 x ≤ 1 := by
  unfold clamp01
  constructor
  · exact le_max_left 0 _
  · exact max_le (by norm_num) (min_le_left 1 x)

theorem forecast_ok_points {history : List ScoreHistoryPoint} {horizon : Nat}
    {r : ForecastResult} (hr : forecast history horizon = Except.ok r) :
    r.horizon_points = (List.range horizon).map (fun i =>
      { step := i + 1
        predicted_score := clamp01
          (((history.map (fun p => p.fused_score)).getLast?.getD 0) +
            fitSlope (history.map (fun p => p.fused_score)) * ((i : ℚ) + 1))
        confidence := confidenceAt (i + 1) : HorizonPoint }) := by
  unfold forecast at hr
  by_cases h : history.length < 3
  · rw [if_pos h] at hr
    exact absurd hr (by simp)
  · rw [if_neg h] at hr
    simp only [Except.ok.injEq] at hr
    rw [← hr]

theorem forecast_points_getD {history : List ScoreHistoryPoint} {horizon : Nat}
    {r : ForecastResult} (hr : forecast history horizon = Except.ok r)
    {i : Nat} (hi : i < horizon) :
    r.horizon_points.getD i ⟨0, 0, 0⟩ =
      { step := i + 1
        predicted_score := clamp01
          (((history.map (fun p => p.fused_score)).getLast?.getD 0) +
            fitSlope (history.map (fun p => p.fused_score)) * ((i : ℚ) + 1))
        confidence := confidenceAt (i + 1) : HorizonPoint } := by
  rw [forecast_ok_points hr, List.getD_eq_getElem?_getD, List.getElem?_map,
    List.getElem?_range hi]
  simp

/-- C5: the forecaster fails with the insufficient-history error exactly
on histories shorter than three points; with three or more points it
never returns that error (nor any other). -/
theorem forecast_insufficient_history (history : List ScoreHistoryPoint)
    (horizon : Nat) :
    (history.length < 3 →
      forecast history horizon = Except.error ForecastError.insufficientHistory) ∧
    (3 ≤ history.length →
      (∃ r, forecast history horizon = Except.ok r) ∧
      forecast history horizon ≠ Except.error ForecastError.insufficientHistory) := by
  constructor
  · intro h
    unfold forecast
    rw [if_pos h]
  · intro h
    unfold forecast
    rw [if_neg (by omega)]
    exact ⟨⟨_, rfl⟩, by simp⟩

/-- Witness for C5: a two-point history fails with insufficient history,
a three-point history does not. -/
theorem forecast_insufficient_history_witness :
    forecast [⟨"d", 0, 0⟩, ⟨"d", 0, 1⟩] 7 =
      Except.error ForecastError.insufficientHistory ∧
    forecast [⟨"d", 0, 0⟩, ⟨"d", 0, 1⟩, ⟨"d", 0, 2⟩] 7 ≠
      Except.error ForecastError.insufficientHistory := by
  constructor
  · exact (forecast_insufficient_history [⟨"d", 0, 0⟩, ⟨"d", 0, 1⟩] 7).1 (by simp)
  · exact ((forecast_insufficient_history
      [⟨"d", 0, 0⟩, ⟨"d", 0, 1⟩, ⟨"d", 0, 2⟩] 7).2 (by simp)).2

/-- C6: in any successful forecast the confidence of the horizon points
is non-increasing in the step index: the point at position j has
confidence at most that of any earlier position i. -/
theorem forecast_confidence_antitone (history : List ScoreHistoryPoint)
    (horizon : Nat) (r : ForecastResult)
    (hr : forecast history horizon = Except.ok r)
    (i j : Nat) (hij : i ≤ j) (hj : j < r.horizon_points.length) :
    (r.horizon_points.getD j ⟨0, 0, 0⟩).confidence ≤
      (r.horizon_points.getD i ⟨0, 0, 0⟩).confidence := by
  have hlen : r.horizon_points.length = horizon := by
    rw [forecast_ok_points hr]
    simp
  have hj' : j < horizon := hlen ▸ hj
  have hi' : i < horizon := lt_of_le_of_lt hij hj'
  rw [forecast_points_getD hr hj', forecast_points_getD hr hi']
  show confidenceAt (j + 1) ≤ confidenceAt (i + 1)
  unfold confidenceAt
  exact pow_le_pow_of_le_one (by norm_num) (by norm_num) (by omega)

/-- Witness for C6: on a concrete three-point history with horizon 2 the
second projected point has confidence at most the first. -/
theorem forecast_confidence_antitone_witness :
    ∃ r, forecast [⟨"d", 0, 0⟩, ⟨"d", 0, 1⟩, ⟨"d", 0, 2⟩] 2 = Except.ok r ∧
      (r.horizon_points.getD 1 ⟨0, 0, 0⟩).confidence ≤
        (r.horizon_points.getD 0 ⟨0, 0, 0⟩).confidence := by
  obtain ⟨r, hr⟩ :=
    ((forecast_insufficient_history [⟨"d", 0, 0⟩, ⟨"d", 0, 1⟩, ⟨"d", 0, 2⟩] 2).2
      (by simp)).1
  refine ⟨r, hr, ?_⟩
  have hlen : r.horizon_points.length = 2 := by
    rw [forecast_ok_points hr]
    simp
  exact forecast_confidence_antitone [⟨"d", 0, 0⟩, ⟨"d", 0, 1⟩, ⟨"d", 0, 2⟩] 2 r hr
    0 1 (by omega) (by omega)

/-- C7: every successful forecast with the default horizon 7 yields
exactly 7 horizon points, the point at position i carrying step index
i + 1, and every predicted score lies in [0, 1]. -/
theorem forecast_default_horizon (history : List ScoreHistoryPoint)
    (r : ForecastResult) (hr : forecast history 7 = Except.ok r) :
    r.horizon_points.length = 7 ∧
    (∀ i, i < 7 → (r.horizon_points.getD i ⟨0, 0, 0⟩).step = i + 1) ∧
    (∀ p ∈ r.horizon_points, 0 ≤ p.predicted_score ∧ p.predicted_score ≤ 1) := by
  refine ⟨?_, ?_, ?_⟩
  · rw [forecast_ok_points hr]
    simp
  · intro i hi
    rw [forecast_points_getD hr hi]
  · intro p hp
    rw [forecast_ok_points hr] at hp
    obtain ⟨i, _, hpi⟩ := List.mem_map.mp hp
    rw [← hpi]
    exact clamp01_mem _

/-- Witness for C7 on a concrete three-point history. -/
theorem forecast_default_horizon_witness :
    ∃ r, forecast [⟨"d", 0, 0⟩, ⟨"d", 0, 1⟩, ⟨"d", 0, 2⟩] 7 = Except.ok r ∧
      r.horizon_points.length = 7 := by
  obtain ⟨r, hr⟩ :=
    ((forecast_insufficient_history [⟨"d", 0, 0⟩, ⟨"d", 0, 1⟩, ⟨"d", 0, 2⟩] 7).2
      (by simp)).1
  exact ⟨r, hr, (forecast_default_horizon [⟨"d", 0, 0⟩, ⟨"d", 0, 1⟩, ⟨"d", 0, 2⟩] r hr).1⟩

/-! Helper lemmas on the schema drift detector. -/

theorem bestMatch_spec {simf : String → String → ℚ} {r : String} :
    ∀ {adds : List String} {a : String} {s : ℚ},
      bestMatch simf r adds = some (a, s) → a ∈ adds ∧ s = simf r a := by
  intro adds
  induction adds with
  | nil => intro a s h; simp [bestMatch] at h
  | cons x xs ih =>
      intro a s h
      unfold bestMatch at h
      rcases hx : bestMatch simf r xs with _ | ⟨b, t⟩
      · rw [hx] at h
        dsimp only at h
        simp only [Option.some.injEq, Prod.mk.injEq] at h
        exact ⟨by simp [← h.1], by rw [← h.1, ← h.2]⟩
      · rw [hx] at h
        dsimp only at h
        split_ifs at h with hge
        · simp only [Option.some.injEq, Prod.mk.injEq] at h
          exact ⟨by simp [← h.1], by rw [← h.1, ← h.2]⟩
        · simp only [Option.some.injEq, Prod.mk.injEq] at h
          obtain ⟨hb, hs⟩ := ih hx
          exact ⟨by simp [← h.1, hb], by rw [← h.1, ← h.2, hs]⟩

theorem resolveRemoved_snd_subset (cfg : SchemaConfig) :
    ∀ (rem adds : List String), (resolveRemoved cfg rem adds).2 ⊆ adds := by
  intro rem
  induction rem with
  | nil => intro adds; simp [resolveRemoved]
  | cons r rs ih =>
      intro adds
      unfold resolveRemoved
      rcases hb : bestMatch cfg.sim r adds with _ | ⟨a, s⟩ <;> dsimp only
      · exact ih adds
      · split_ifs with hs
        · exact fun x hx => List.erase_subset a adds (ih (adds.erase a) hx)
        · exact ih adds

theorem resolveRemoved_renamed_mem (cfg : SchemaConfig) :
    ∀ (rem adds : List String) (r a : String) (s : ℚ),
      SchemaFinding.renamed r a s ∈ (resolveRemoved cfg rem adds).1 → r ∈ rem := by
  intro rem
  induction rem with
  | nil => intro adds r a s h; simp [resolveRemoved] at h
  | cons r0 rs ih =>
      intro adds r a s h
      unfold resolveRemoved at h
      rcases hb : bestMatch cfg.sim r0 adds with _ | ⟨a0, s0⟩ <;> rw [hb] at h <;> dsimp only at h
      · rcases List.mem_cons.mp h with h | h
        · exact absurd h (by simp)
        · exact List.mem_cons_of_mem r0 (ih adds r a s h)
      · split_ifs at h with hs
        · rcases List.mem_cons.mp h with h | h
          · simp only [SchemaFinding.renamed.injEq] at h
            rw [h.1]
            exact List.mem_cons_self r0 rs
          · exact List.mem_cons_of_mem r0 (ih (adds.erase a0) r a s h)
        · rcases List.mem_cons.mp h with h | h
          · exact absurd h (by simp)
          · exact List.mem_cons_of_mem r0 (ih adds r a s h)

theorem resolveRemoved_removed_mem (cfg : SchemaConfig) :
    ∀ (rem adds : List String) (r : String),
      SchemaFinding.removed r ∈ (resolveRemoved cfg rem adds).1 → r ∈ rem := by
  intro rem
  induction rem with
  | nil => intro adds r h; simp [resolveRemoved] at h
  | cons r0 rs ih =>
      intro adds r h
      unfold resolveRemoved at h
      rcases hb : bestMatch cfg.sim r0 adds with _ | ⟨a0, s0⟩ <;> rw [hb] at h <;> dsimp only at h
      · rcases List.mem_cons.mp h with h | h
        · simp only [SchemaFinding.removed.injEq] at h
          rw [h]
          exact List.mem_cons_self r0 rs
        · exact List.mem_cons_of_mem r0 (ih adds r h)
      · split_ifs at h with hs
        · rcases List.mem_cons.mp h with h | h
          · exact absurd h (by simp)
          · exact List.mem_cons_of_mem r0 (ih (adds.erase a0) r h)
        · rcases List.mem_cons.mp h with h | h
          · simp only [SchemaFinding.removed.injEq] at h
            rw [h]
            exact List.mem_cons_self r0 rs
          · exact List.mem_cons_of_mem r0 (ih adds r h)

theorem resolveRemoved_no_added (cfg : SchemaConfig) :
    ∀ (rem adds : List String) (c : String),
      SchemaFinding.added c ∉ (resolveRemoved cfg rem adds).1 := by
  intro rem
  induction rem with
  | nil => intro adds c h; simp [resolveRemoved] at h
  | cons r0 rs ih =>
      intro adds c h
      unfold resolveRemoved at h
      rcases hb : bestMatch cfg.sim r0 adds with _ | ⟨a0, s0⟩ <;> rw [hb] at h <;> dsimp only at h
      · rcases List.mem_cons.mp h with h | h
        · exact absurd h (by simp)
        · exact ih adds c h
      · split_ifs at h with hs
        · rcases List.mem_cons.mp h with h | h
          · exact absurd h (by simp)
          · exact ih (adds.erase a0) c h
        · rcases List.mem_cons.mp h with h | h
          · exact absurd h (by simp)
          · exact ih adds c h

theorem isRenamedOf_eq_true {r : String} {f : SchemaFinding} :
    isRenamedOf r f = true ↔ ∃ b s, f = SchemaFinding.renamed r b s := by
  cases f with
  | renamed old b s =>
      simp only [isRenamedOf, decide_eq_true_eq]
      constructor
      · intro h; exact ⟨b, s, by rw [h]⟩
      · rintro ⟨b', s', h⟩
        simp only [SchemaFinding.renamed.injEq] at h
        exact h.1
  | removed c => simp [isRenamedOf]
  | added c => simp [isRenamedOf]

theorem resolveRemoved_countP_zero (cfg : SchemaConfig)
    (rem adds : List String) (r : String) (hr : r ∉ rem) :
    (resolveRemoved cfg rem adds).1.countP (isRenamedOf r) = 0 := by
  rw [List.countP_eq_zero]
  intro f hf hc
  obtain ⟨b, s, hbs⟩ := isRenamedOf_eq_true.mp hc
  exact hr (resolveRemoved_renamed_mem cfg rem adds r b s (hbs ▸ hf))

theorem resolveRemoved_rename_unique (cfg : SchemaConfig) :
    ∀ (rem adds : List String), rem.Nodup → adds.Nodup →
      ∀ (r a : String) (s : ℚ),
        SchemaFinding.renamed r a s ∈ (resolveRemoved cfg rem adds).1 →
        (resolveRemoved cfg rem adds).1.countP (isRenamedOf r) = 1 ∧
        s = cfg.sim r a ∧ cfg.threshold < s ∧
        SchemaFinding.removed r ∉ (resolveRemoved cfg rem adds).1 ∧
        a ∉ (resolveRemoved cfg rem adds).2 := by
  intro rem
  induction rem with
  | nil => intro adds _ _ r a s h; simp [resolveRemoved] at h
  | cons r0 rs ih =>
      intro adds hnr hna r a s h
      have hr0 : r0 ∉ rs := (List.nodup_cons.mp hnr).1
      have hnrs : rs.Nodup := (List.nodup_cons.mp hnr).2
      rw [show resolveRemoved cfg (r0 :: rs) adds =
          (match bestMatch cfg.sim r0 adds with
           | some (a, s) =>
               if cfg.threshold < s then
                 let rest := resolveRemoved cfg rs (adds.erase a)
                 (SchemaFinding.renamed r0 a s :: rest.1, rest.2)
               else
                 let rest := resolveRemoved cfg rs adds
                 (SchemaFinding.removed r0 :: rest.1, rest.2)
           | none =>
               let rest := resolveRemoved cfg rs adds
               (SchemaFinding.removed r0 :: rest.1, rest.2)) from rfl] at h ⊢
      rcases hb : bestMatch cfg.sim r0 adds with _ | ⟨a0, s0⟩ <;> rw [hb] at h <;>
        dsimp only at h ⊢
      · rcases List.mem_cons.mp h with hh | hh
        · exact absurd hh (by simp)
        · obtain ⟨h1, h2, h3, h4, h5⟩ := ih adds hnrs hna r a s hh
          refine ⟨?_, h2, h3, ?_, h5⟩
          · rw [List.countP_cons_of_neg]
            · exact h1
            · simp only [isRenamedOf]
              exact Bool.false_ne_true
          · intro hc
            rcases List.mem_cons.mp hc with hc | hc
            · simp only [SchemaFinding.removed.injEq] at hc
              exact hr0 (hc ▸ resolveRemoved_renamed_mem cfg rs adds r a s hh)
            · exact h4 hc
      · obtain ⟨ha0, hs0⟩ := bestMatch_spec hb
        split_ifs at h ⊢ with hs
        · rcases List.mem_cons.mp h with hh | hh
          · simp only [SchemaFinding.renamed.injEq] at hh
            obtain ⟨hrr, haa, hss⟩ := hh
            subst hrr; subst haa; subst hss
            refine ⟨?_, hs0, hs, ?_, ?_⟩
            · rw [List.countP_cons_of_pos]
              · rw [resolveRemoved_countP_zero cfg rs (adds.erase a) r hr0]
              · simp [isRenamedOf]
            · intro hc
              rcases List.mem_cons.mp hc with hc | hc
              · exact absurd hc (by simp)
              · exact hr0 (resolveRemoved_removed_mem cfg rs (adds.erase a) r hc)
            · intro hc
              exact hna.not_mem_erase
                (resolveRemoved_snd_subset cfg rs (adds.erase a) hc)
          · obtain ⟨h1, h2, h3, h4, h5⟩ :=
              ih (adds.erase a0) hnrs (hna.erase a0) r a s hh
            have hrne : r ≠ r0 := by
              intro he
              exact hr0 (he ▸ resolveRemoved_renamed_mem cfg rs (adds.erase a0) r a s hh)
            refine ⟨?_, h2, h3, ?_, h5⟩
            · rw [List.countP_cons_of_neg]
              · exact h1
              · simp [isRenamedOf, hrne.symm]
            · intro hc
              rcases List.mem_cons.mp hc with hc | hc
              · exact absurd hc (by simp)
              · exact h4 hc
        · rcases List.mem_cons.mp h with hh | hh
          · exact absurd hh (by simp)
          · obtain ⟨h1, h2, h3, h4, h5⟩ := ih adds hnrs hna r a s hh
            have hrne : r ≠ r0 := by
              intro he
              exact hr0 (he ▸ resolveRemoved_renamed_mem cfg rs adds r a s hh)
            refine ⟨?_, h2, h3, ?_, h5⟩
            · rw [List.countP_cons_of_neg]
              · exact h1
              · simp only [isRenamedOf]
                exact Bool.false_ne_true
            · intro hc
              rcases List.mem_cons.mp hc with hc | hc
              · simp only [SchemaFinding.removed.injEq] at hc
                exact hrne hc
              · exact h4 hc

/-- C4: whenever the schema detector resolves a removed baseline column
r to an added current column a above the similarity threshold (a rename
finding for the pair is in the report), that rename finding is unique for
r, it carries the similarity score of the pair which exceeds the
threshold, and the report holds no unresolved removed finding for r and
no unresolved added finding for a. -/
theorem schemaFindings_rename_resolved (cfg : SchemaConfig)
    (baseline current : List String) (hb : baseline.Nodup) (hc : current.Nodup)
    (r a : String) (s : ℚ)
    (hmem : SchemaFinding.renamed r a s ∈ schemaFindings cfg baseline current) :
    (schemaFindings cfg baseline current).countP (isRenamedOf r) = 1 ∧
    s = cfg.sim r a ∧ cfg.threshold < s ∧
    SchemaFinding.removed r ∉ schemaFindings cfg baseline current ∧
    SchemaFinding.added a ∉ schemaFindings cfg baseline current := by
  have hbn : (baseline.filter (fun c => decide (c ∉ current))).Nodup := hb.filter _
  have hcn : (current.filter (fun c => decide (c ∉ baseline))).Nodup := hc.filter _
  set rem := baseline.filter (fun c => decide (c ∉ current)) with hrem
  set adds := current.filter (fun c => decide (c ∉ baseline)) with hadds
  have hsf : schemaFindings cfg baseline current =
      (resolveRemoved cfg rem adds).1 ++
        (resolveRemoved cfg rem adds).2.map SchemaFinding.added := rfl
  rw [hsf] at hmem
  have hmem1 : SchemaFinding.renamed r a s ∈ (resolveRemoved cfg rem adds).1 := by
    rcases List.mem_append.mp hmem with h | h
    · exact h
    · obtain ⟨x, _, hx⟩ := List.mem_map.mp h
      exact absurd hx (by simp)
  obtain ⟨h1, h2, h3, h4, h5⟩ :=
    resolveRemoved_rename_unique cfg rem adds hbn hcn r a s hmem1
  rw [hsf]
  refine ⟨?_, h2, h3, ?_, ?_⟩
  · rw [List.countP_append, h1]
    have hz : ((resolveRemoved cfg rem adds).2.map SchemaFinding.added).countP
        (isRenamedOf r) = 0 := by
      rw [List.countP_eq_zero]
      intro f hf
      obtain ⟨x, _, hx⟩ := List.mem_map.mp hf
      rw [← hx]
      simp only [isRenamedOf]
      exact Bool.false_ne_true
    omega
  · intro hcon
    rcases List.mem_append.mp hcon with h | h
    · exact h4 h
    · obtain ⟨x, _, hx⟩ := List.mem_map.mp h
      exact absurd hx (by simp)
  · intro hcon
    rcases List.mem_append.mp hcon with h | h
    · exact resolveRemoved_no_added cfg rem adds a h
    · obtain ⟨x, hx2, hx⟩ := List.mem_map.mp h
      simp only [SchemaFinding.added.injEq] at hx
      exact h5 (hx ▸ hx2)

/-- Witness for C4: baseline `[user_id, age]` against current
`[userid, age]` with a similarity function rating the pair 0.7 yields
exactly one rename finding and no unresolved add or remove finding for
the pair. -/
theorem schemaFindings_rename_resolved_witness :
    (schemaFindings
        ⟨fun x y => if x = "user_id" then if y = "userid" then 7/10 else 0 else 0,
          6/10⟩
        ["user_id", "age"] ["userid", "age"]).countP (isRenamedOf "user_id") = 1 ∧
    SchemaFinding.added "userid" ∉
      schemaFindings
        ⟨fun x y => if x = "user_id" then if y = "userid" then 7/10 else 0 else 0,
          6/10⟩
        ["user_id", "age"] ["userid", "age"] := by
  have e : schemaFindings
      ⟨fun x y => if x = "user_id" then if y = "userid" then 7/10 else 0 else 0,
        6/10⟩
      ["user_id", "age"] ["userid", "age"] =
      [SchemaFinding.renamed "user_id" "userid" (7/10)] := by
    norm_num [schemaFindings, resolveRemoved, bestMatch]
    decide
  have h := schemaFindings_rename_resolved
    ⟨fun x y => if x = "user_id" then if y = "userid" then 7/10 else 0 else 0, 6/10⟩
    ["user_id", "age"] ["userid", "age"] (by decide) (by decide)
    "user_id" "userid" (7/10) (by rw [e]; simp)
  exact ⟨h.1, h.2.2.2.2⟩

end DriftMonitor
